import Mathlib

/-!
Shallow embedding of `main.py` from the `write_files_perf` repository: a
benchmark harness that writes a batch of random text chunks to files under
four strategy directories (`aiofiles`, `aiofile`, `file`, `executor`),
timing each strategy.

The embedding models:
* random chunk generation (`random_string`, `generate_random_chunks`) with the
  global pseudo-random generator threaded as explicit state;
* the filesystem as a tree of named entries, with `delete_dir`
  (`shutil.rmtree` guarded by `Path.exists`), `make_dir`
  (`Path.mkdir(parents=True, exist_ok=True)`) and `open(..., 'w+')`-style
  file writes;
* the four write strategies, the pooled-executor variant taking the pool's
  completion order as an explicit parameter;
* the timing wrapper (`perf_manager` / `timeit`) with printing modelled as an
  output list and wall-clock instants as rational parameters;
* the harness (`test`, `main`) with its setup/run/teardown event sequence.
-/

namespace WriteFilesPerf

/-! ### Random chunk generation (`random_string`, `generate_random_chunks`) -/

/-- `string.ascii_uppercase` from the Python standard library. -/
def ascii_uppercase : List Char := "ABCDEFGHIJKLMNOPQRSTUVWXYZ".toList

/-- `string.digits` from the Python standard library. -/
def string_digits : List Char := "0123456789".toList

/-- The default alphabet of `random_string`:
`string.ascii_uppercase + string.digits`. -/
def defaultChars : List Char := ascii_uppercase ++ string_digits

/-- The state of the global pseudo-random generator (the `random` module's
process-wide shared instance): an infinite stream of draws and the current
position in it.  Each element selected by `random.choices` consumes one draw
and advances the position. -/
structure RandomState where
  stream : Nat → Nat
  pos : Nat

/-- `random.choices(chars, k=k)`: a list of `k` elements, each selected from
`chars` by the next draw of the global generator; the generator state is
advanced by `k` draws. -/
def choices (chars : List Char) (k : Nat) (s : RandomState) :
    List Char × RandomState :=
  ((List.range k).map (fun i => chars.getD (s.stream (s.pos + i) % chars.length) 'A'),
   ⟨s.stream, s.pos + k⟩)

/-- `random_string(count, chars)`: `''.join(random.choices(chars, k=count))`. -/
def random_string (count : Nat) (chars : List Char) (s : RandomState) :
    String × RandomState :=
  ((choices chars count s).1.asString, (choices chars count s).2)

/-- `generate_random_chunks(n, chunk_size)`: the list comprehension
`[random_string(chunk_size) for _ in range(n)]`, threading the global
generator state through the successive calls. -/
def generate_random_chunks : Nat → Nat → RandomState → List String × RandomState
  | 0, _, s => ([], s)
  | n + 1, chunk_size, s =>
    ((random_string chunk_size defaultChars s).1 ::
       (generate_random_chunks n chunk_size
         (random_string chunk_size defaultChars s).2).1,
     (generate_random_chunks n chunk_size
       (random_string chunk_size defaultChars s).2).2)

/-! ### Filesystem model -/

/-- A filesystem entry: a regular file with its text content, or a directory
with its named children (an association list; lookup takes the first match,
and the operations below keep at most one binding per name). -/
inductive Entry where
  | file (content : String)
  | dir (children : List (String × Entry))

/-- A filesystem state: the children of the current working directory `.`
(all paths in `main.py` are of the form `./name` or `./name/file`). -/
abbrev FS := List (String × Entry)

/-- First-match association lookup among named entries. -/
def lookupEntry : List (String × Entry) → String → Option Entry
  | [], _ => none
  | (k, e) :: rest, name => if k = name then some e else lookupEntry rest name

/-- Remove every binding of `name` (removing a directory binding removes the
whole subtree below it, i.e. the deletion is recursive). -/
def eraseEntry (l : List (String × Entry)) (name : String) :
    List (String × Entry) :=
  l.filter (fun p => p.1 != name)

/-- Replace (or create) the binding of `name`. -/
def setEntry (l : List (String × Entry)) (name : String) (e : Entry) :
    List (String × Entry) :=
  eraseEntry l name ++ [(name, e)]

/-- The exceptions the modelled filesystem calls can raise. -/
inductive FsError where
  | notADirectory
  | fileExists
  | fileNotFound
  | isADirectory
deriving DecidableEq

/-- `Path('./name').exists()`: true if anything (file or directory) is bound
at the path. -/
def pathExists (fs : FS) (dirname : String) : Bool :=
  (lookupEntry fs dirname).isSome

/-- `delete_dir(dirname)` from `main.py`: if `Path('./dirname').exists()` then
`shutil.rmtree` it.  `rmtree` removes a directory recursively, and raises
`NotADirectoryError` when the existing path is a regular file. -/
def delete_dir (fs : FS) (dirname : String) : Except FsError FS :=
  match lookupEntry fs dirname with
  | none => Except.ok fs
  | some (Entry.dir _) => Except.ok (eraseEntry fs dirname)
  | some (Entry.file _) => Except.error FsError.notADirectory

/-- `make_dir(dirname)` from `main.py`:
`Path('./dirname').mkdir(parents=True, exist_ok=True)`.  `exist_ok` suppresses
the error only when the existing path is a directory; a regular file at the
path still raises `FileExistsError`. -/
def make_dir (fs : FS) (dirname : String) : Except FsError FS :=
  match lookupEntry fs dirname with
  | some (Entry.dir _) => Except.ok fs
  | some (Entry.file _) => Except.error FsError.fileExists
  | none => Except.ok (setEntry fs dirname (Entry.dir []))

/-- The harness's per-directory reset step (the body of the first loop of
`test`): `delete_dir(dirname)` followed by `make_dir(dirname)`. -/
def reset (fs : FS) (dirname : String) : Except FsError FS :=
  match delete_dir fs dirname with
  | Except.ok fs2 => make_dir fs2 dirname
  | Except.error e => Except.error e

/-- Whether an optional entry is a regular file. -/
def isFileEntry : Option Entry → Bool
  | some (Entry.file _) => true
  | _ => false

/-! ### File writes and the four strategies -/

/-- The file name `f'{idx}.txt'` used by every strategy. -/
def fname (idx : Nat) : String := Nat.repr idx ++ ".txt"

/-- `write_file(file_name, data)` (and the equivalent `open`/`aiofiles.open`/
`aiofile.AIOFile` blocks) at path `./dirname/fn`: mode `'w+'` truncates or
creates the file and `f.write(data)` stores the content.  Opening fails when
the parent directory is missing (`FileNotFoundError`), when the parent is a
regular file (`NotADirectoryError`), or when the target itself is a directory
(`IsADirectoryError`). -/
def write_file (fs : FS) (dirname fn data : String) : Except FsError FS :=
  match lookupEntry fs dirname with
  | some (Entry.dir children) =>
    match lookupEntry children fn with
    | some (Entry.dir _) => Except.error FsError.isADirectory
    | _ => Except.ok (setEntry fs dirname
        (Entry.dir (setEntry children fn (Entry.file data))))
  | some (Entry.file _) => Except.error FsError.notADirectory
  | none => Except.error FsError.fileNotFound

/-- Run a list of `(index, chunk)` write tasks against directory `dirname`,
in list order, each task writing its chunk to `fname index`; the first
failure aborts the rest. -/
def run_tasks (dirname : String) : List (Nat × String) → FS → Except FsError FS
  | [], fs => Except.ok fs
  | t :: rest, fs =>
    match write_file fs dirname (fname t.1) t.2 with
    | Except.ok fs2 => run_tasks dirname rest fs2
    | Except.error e => Except.error e

/-- The `Dirs` enumeration from `main.py`. -/
inductive Dirs where
  | AIOFILES
  | AIOFILE
  | FILE
  | EXECUTOR
deriving DecidableEq

/-- The `.value` of each `Dirs` member: the output directory name. -/
def Dirs.value : Dirs → String
  | .AIOFILES => "aiofiles"
  | .AIOFILE => "aiofile"
  | .FILE => "file"
  | .EXECUTOR => "executor"

/-- Python's `str()` of a plain `enum.Enum` member is `'ClassName.MEMBER'`;
this is what `f'{Dirs.AIOFILES}'` etc. in the decorator lines produce. -/
def Dirs.pyStr : Dirs → String
  | .AIOFILES => "Dirs.AIOFILES"
  | .AIOFILE => "Dirs.AIOFILE"
  | .FILE => "Dirs.FILE"
  | .EXECUTOR => "Dirs.EXECUTOR"

/-- Iteration order of `for dirname in Dirs`: definition order. -/
def dirsMembers : List Dirs := [Dirs.AIOFILES, Dirs.AIOFILE, Dirs.FILE, Dirs.EXECUTOR]

/-- Filesystem effect of `test_aiofiles(chunks)`: for each `(idx, chunk)` of
`enumerate(chunks)`, in index order, write the chunk to
`./aiofiles/{idx}.txt`; each write is awaited before the next begins. -/
def test_aiofiles_run (chunks : List String) (fs : FS) : Except FsError FS :=
  run_tasks Dirs.AIOFILES.value chunks.enum fs

/-- Filesystem effect of `test_aiofile(chunks)`: same sequential loop as
`test_aiofiles`, with the `aiofile` library, into `./aiofile/{idx}.txt`. -/
def test_aiofile_run (chunks : List String) (fs : FS) : Except FsError FS :=
  run_tasks Dirs.AIOFILE.value chunks.enum fs

/-- Filesystem effect of `test_file(chunks)`: the same loop with direct
synchronous `write_file` calls, into `./file/{idx}.txt`. -/
def test_file_run (chunks : List String) (fs : FS) : Except FsError FS :=
  run_tasks Dirs.FILE.value chunks.enum fs

/-- Filesystem effect of `test_executor(chunks)`: all `(idx, chunk)` tasks of
`enumerate(chunks)` are submitted to the three-worker pool in index order and
`asyncio.gather` waits for all of them; the pool may interleave and complete
them in any order, so the effect is taken relative to an explicit completion
order `order`, constrained in the theorems to be a permutation of
`chunks.enum`. -/
def test_executor_run (order : List (Nat × String)) (fs : FS) :
    Except FsError FS :=
  run_tasks Dirs.EXECUTOR.value order fs

/-- All children of a directory are regular files (no subdirectories). -/
def FilesOnly (l : List (String × Entry)) : Prop :=
  ∀ p ∈ l, ∃ c, p.2 = Entry.file c

/-! ### Timer (`perf_manager`, `timeit`) -/

/-- Left-pad with `'0'` to width `w`. -/
def padZeros (w : Nat) (s : String) : String :=
  (List.replicate (w - s.length) '0').asString ++ s

/-- Python's `f'{x:.6f}'` for the nonnegative rationals the harness formats:
six fixed decimal places, rounding half up — the value scaled to micro-units
is `⌊x * 10^6 + 1/2⌋`, computed as the floor division
`(2 * num * 10^6 + den) / (2 * den)`; negative inputs, which the harness
never produces, clamp to zero. -/
def formatFixed6 (q : ℚ) : String :=
  let scaled : Nat :=
    (Int.ediv (2 * q.num * 1000000 + (q.den : Int)) (2 * (q.den : Int))).toNat
  Nat.repr (scaled / 1000000) ++ "." ++ padZeros 6 (Nat.repr (scaled % 1000000))

/-- The line `f'{description}: {time_delta:.6f} ms'` printed by
`perf_manager`, where `time_delta` is `(finish_time - start_time) * 10 ** 3`
milliseconds and the two instants are `time.perf_counter()` readings in
seconds. -/
def timeLine (description : String) (start_time finish_time : ℚ) : String :=
  description ++ ": " ++ formatFixed6 ((finish_time - start_time) * 1000) ++ " ms"

/-- `perf_manager(description)` from `main.py`: the context manager reads
`time.perf_counter()` before the body and again in its `finally` block, then
prints the elapsed-time line — after the body's own output, whether the body
returned normally or raised; the body's result or exception passes through
unchanged. -/
def perf_manager {α : Type} (description : String) (start_time finish_time : ℚ)
    (body : List String × Except FsError α) : List String × Except FsError α :=
  (body.1 ++ [timeLine description start_time finish_time], body.2)

/-- `timeit(description, sync)` from `main.py`: both the sync wrapper and the
async wrapper run the wrapped function inside `perf_manager(description)`. -/
def timeit {α β : Type} (description : String) (start_time finish_time : ℚ)
    (func : α → List String × Except FsError β) (a : α) :
    List String × Except FsError β :=
  perf_manager description start_time finish_time (func a)

/-- The decorator description `f'{Dirs.AIOFILES}'` of `test_aiofiles`. -/
def aiofilesDescription : String := Dirs.AIOFILES.pyStr

/-- The decorator description `f'{Dirs.AIOFILE} '` of `test_aiofile`
(note the one-space alignment padding in the source). -/
def aiofileDescription : String := Dirs.AIOFILE.pyStr ++ " "

/-- The decorator description `f'{Dirs.FILE}    '` of `test_file`
(note the four-space alignment padding in the source). -/
def fileDescription : String := Dirs.FILE.pyStr ++ "    "

/-- The decorator description `f'{Dirs.EXECUTOR}'` of `test_executor`. -/
def executorDescription : String := Dirs.EXECUTOR.pyStr

/-- `test_aiofiles` as decorated by `@timeit(f'{Dirs.AIOFILES}', sync=False)`,
with the two perf-counter readings as parameters. -/
def test_aiofiles_timed (t0 t1 : ℚ) (chunks : List String) (fs : FS) :
    List String × Except FsError FS :=
  timeit aiofilesDescription t0 t1 (fun fs => ([], test_aiofiles_run chunks fs)) fs

/-- `test_aiofile` as decorated by `@timeit(f'{Dirs.AIOFILE} ', sync=False)`. -/
def test_aiofile_timed (t0 t1 : ℚ) (chunks : List String) (fs : FS) :
    List String × Except FsError FS :=
  timeit aiofileDescription t0 t1 (fun fs => ([], test_aiofile_run chunks fs)) fs

/-- `test_file` as decorated by `@timeit(f'{Dirs.FILE}    ', sync=True)`. -/
def test_file_timed (t0 t1 : ℚ) (chunks : List String) (fs : FS) :
    List String × Except FsError FS :=
  timeit fileDescription t0 t1 (fun fs => ([], test_file_run chunks fs)) fs

/-- `test_executor` as decorated by `@timeit(f'{Dirs.EXECUTOR}', sync=False)`. -/
def test_executor_timed (t0 t1 : ℚ) (order : List (Nat × String)) (fs : FS) :
    List String × Except FsError FS :=
  timeit executorDescription t0 t1 (fun fs => ([], test_executor_run order fs)) fs

/-! ### Harness (`test`, `main`) -/

/-- Sequencing of the harness: run `step` on the state if the previous stage
succeeded, accumulating printed output; a raised exception skips the rest. -/
def andThen (prev : List String × Except FsError FS)
    (step : FS → List String × Except FsError FS) :
    List String × Except FsError FS :=
  match prev with
  | (out, Except.ok fs) => (out ++ (step fs).1, (step fs).2)
  | (out, Except.error e) => (out, Except.error e)

/-- The first loop of `test`: `delete_dir(dirname.value)` then
`make_dir(dirname.value)` for every member of `Dirs`, in enumeration order. -/
def setup_dirs : List Dirs → FS → Except FsError FS
  | [], fs => Except.ok fs
  | d :: rest, fs =>
    match reset fs d.value with
    | Except.ok fs2 => setup_dirs rest fs2
    | Except.error e => Except.error e

/-- The final loop of `test`: `delete_dir(dirname.value)` for every member of
`Dirs`, in enumeration order. -/
def teardown_dirs : List Dirs → FS → Except FsError FS
  | [], fs => Except.ok fs
  | d :: rest, fs =>
    match delete_dir fs d.value with
    | Except.ok fs2 => teardown_dirs rest fs2
    | Except.error e => Except.error e

/-- `test(chunks)` from `main.py`: reset all four directories, then await
`test_aiofiles`, await `test_aiofile`, await `test_executor`, call
`test_file` — each to completion before the next — then delete all four
directories.  `t` supplies the perf-counter readings around the four timed
calls, `order` the executor pool's completion order. -/
def test (chunks : List String) (order : List (Nat × String))
    (t : Fin 4 → ℚ × ℚ) (fs : FS) : List String × Except FsError FS :=
  andThen (andThen (andThen (andThen (andThen
    ([], setup_dirs dirsMembers fs)
    (fun fs => test_aiofiles_timed (t 0).1 (t 0).2 chunks fs))
    (fun fs => test_aiofile_timed (t 1).1 (t 1).2 chunks fs))
    (fun fs => test_executor_timed (t 2).1 (t 2).2 order fs))
    (fun fs => test_file_timed (t 3).1 (t 3).2 chunks fs))
    (fun fs => ([], teardown_dirs dirsMembers fs))

/-- The constant `n` from `main`: `n, chunk_size = 10, 1024 * 10`. -/
def main_n : Nat := 10

/-- The constant `chunk_size` from `main`: `n, chunk_size = 10, 1024 * 10`. -/
def main_chunk_size : Nat := 1024 * 10

/-- `main()` from `main.py`: prints the configuration line, generates the
chunks, runs `test`, and in its `finally` block prints `Exited`; the run's
result or exception passes through. -/
def main (s : RandomState) (order : List (Nat × String)) (t : Fin 4 → ℚ × ℚ)
    (fs : FS) : List String × Except FsError FS :=
  (("n=" ++ Nat.repr main_n ++ ", chunk_size=" ++ Nat.repr main_chunk_size) ::
      (test (generate_random_chunks main_n main_chunk_size s).1 order t fs).1 ++
      ["Exited"],
   (test (generate_random_chunks main_n main_chunk_size s).1 order t fs).2)

/-! ### Event traces -/

/-- The harness operations of `test`, in program order. -/
inductive HarnessEvent where
  | deleteDir (dirname : String)
  | makeDir (dirname : String)
  | runStrategy (dirname : String)
deriving DecidableEq

/-- The directory of a strategy-run event, if the event is one. -/
def runName : HarnessEvent → Option String
  | HarnessEvent.runStrategy name => some name
  | _ => none

/-- The sequence of harness operations `test` performs: the reset loop over
all four directories, then the four strategy runs (in source order:
`aiofiles`, `aiofile`, `executor`, `file`), then the deletion loop. -/
def testEvents : List HarnessEvent :=
  (dirsMembers.flatMap fun d => [HarnessEvent.deleteDir d.value, HarnessEvent.makeDir d.value]) ++
  [HarnessEvent.runStrategy Dirs.AIOFILES.value,
   HarnessEvent.runStrategy Dirs.AIOFILE.value,
   HarnessEvent.runStrategy Dirs.EXECUTOR.value,
   HarnessEvent.runStrategy Dirs.FILE.value] ++
  (dirsMembers.map fun d => HarnessEvent.deleteDir d.value)

/-- Observable events of one strategy's write loop: the begin and the
completion of the write of file `idx.txt`. -/
inductive WriteEvent where
  | start (idx : Nat)
  | finish (idx : Nat)
deriving DecidableEq

/-- The event trace of the sequential write loops of `test_aiofiles`,
`test_aiofile` and `test_file` over `n` chunks: each loop iteration awaits /
performs its single write to completion before the next iteration begins
(there is exactly one coroutine, suspended at each write). -/
def seqWriteTrace (n : Nat) : List WriteEvent :=
  (List.range n).flatMap fun i => [WriteEvent.start i, WriteEvent.finish i]

/-! ### Specification-level predicates -/

/-- All four strategy directories exist (as directories). -/
def allDirsExist (fs : FS) : Prop :=
  ∀ d ∈ dirsMembers, ∃ ch, lookupEntry fs d.value = some (Entry.dir ch)

/-- All four strategy directories exist and contain only regular files — the
invariant the harness maintains from the initial reset through the four
strategy runs. -/
def cleanDirs (fs : FS) : Prop :=
  ∀ d ∈ dirsMembers, ∃ ch, lookupEntry fs d.value = some (Entry.dir ch) ∧
    FilesOnly ch

/-- The result of one strategy run: it succeeds, directory `dirname` of the
resulting filesystem has children `ch`, file `i.txt` holds chunk `i`
byte-for-byte, and the files present are exactly `0.txt` … `(N-1).txt`. -/
def VariantOutput (chunks : List String) (result : Except FsError FS)
    (dirname : String) (ch : List (String × Entry)) : Prop :=
  (∃ fs2, result = Except.ok fs2 ∧ lookupEntry fs2 dirname = some (Entry.dir ch)) ∧
  (∀ i c, chunks[i]? = some c → lookupEntry ch (fname i) = some (Entry.file c)) ∧
  (∀ name, (∃ e, lookupEntry ch name = some e) ↔
    ∃ i, i < chunks.length ∧ name = fname i)

/-! ### Association-list lemmas -/

theorem lookupEntry_eraseEntry_self (l : List (String × Entry)) (name : String) :
    lookupEntry (eraseEntry l name) name = none := by
  induction l with
  | nil => rfl
  | cons p rest ih =>
    by_cases h : p.1 = name
    · simpa [eraseEntry, List.filter_cons, h] using ih
    · simpa [eraseEntry, List.filter_cons, h, lookupEntry] using ih

theorem lookupEntry_eraseEntry_ne (l : List (String × Entry)) (name other : String)
    (h : other ≠ name) :
    lookupEntry (eraseEntry l name) other = lookupEntry l other := by
  induction l with
  | nil => rfl
  | cons p rest ih =>
    by_cases hp : p.1 = name
    · have hf : (p.1 != name) = false := by simp [hp]
      have hpo : ¬ p.1 = other := by rw [hp]; exact fun he => h he.symm
      simp only [eraseEntry, List.filter_cons, hf, if_false, lookupEntry, hpo] at *
      exact ih
    · have hf : (p.1 != name) = true := by simp [hp]
      by_cases hpo : p.1 = other
      · simp only [eraseEntry, List.filter_cons, hf, if_true]
        simp [lookupEntry, hpo]
      · simp only [eraseEntry, List.filter_cons, hf, if_true, lookupEntry,
          if_neg hpo] at *
        exact ih

theorem lookupEntry_append (l1 l2 : List (String × Entry)) (name : String) :
    lookupEntry (l1 ++ l2) name =
      match lookupEntry l1 name with
      | some e => some e
      | none => lookupEntry l2 name := by
  induction l1 with
  | nil => rfl
  | cons p rest ih =>
    by_cases hp : p.1 = name
    · simp [lookupEntry, hp]
    · simpa [lookupEntry, hp] using ih

theorem lookupEntry_setEntry_self (l : List (String × Entry)) (name : String)
    (e : Entry) : lookupEntry (setEntry l name e) name = some e := by
  rw [setEntry, lookupEntry_append, lookupEntry_eraseEntry_self]
  simp [lookupEntry]

theorem lookupEntry_setEntry_ne (l : List (String × Entry)) (name other : String)
    (e : Entry) (h : other ≠ name) :
    lookupEntry (setEntry l name e) other = lookupEntry l other := by
  rw [setEntry, lookupEntry_append, lookupEntry_eraseEntry_ne l name other h]
  cases hl : lookupEntry l other with
  | some e2 => rfl
  | none => simp [lookupEntry, Ne.symm h]

theorem eraseEntry_append (l1 l2 : List (String × Entry)) (name : String) :
    eraseEntry (l1 ++ l2) name = eraseEntry l1 name ++ eraseEntry l2 name := by
  simp [eraseEntry, List.filter_append]

theorem eraseEntry_eraseEntry (l : List (String × Entry)) (name : String) :
    eraseEntry (eraseEntry l name) name = eraseEntry l name := by
  simp [eraseEntry, List.filter_filter]

theorem eraseEntry_setEntry (l : List (String × Entry)) (name : String)
    (e : Entry) : eraseEntry (setEntry l name e) name = eraseEntry l name := by
  rw [setEntry, eraseEntry_append, eraseEntry_eraseEntry]
  simp [eraseEntry, List.filter_cons]

/-! ### Write-loop lemmas -/

theorem FilesOnly_lookup {l : List (String × Entry)} {name : String} {e : Entry}
    (hfo : FilesOnly l) (h : lookupEntry l name = some e) :
    ∃ c, e = Entry.file c := by
  induction l with
  | nil => cases h
  | cons p rest ih =>
    by_cases hp : p.1 = name
    · simp only [lookupEntry, if_pos hp, Option.some.injEq] at h
      obtain ⟨c, hc⟩ := hfo p (List.mem_cons_self p rest)
      exact ⟨c, h ▸ hc⟩
    · simp only [lookupEntry, if_neg hp] at h
      exact ih (fun q hq => hfo q (List.mem_cons_of_mem p hq)) h

theorem FilesOnly_setEntry {l : List (String × Entry)} (name c : String)
    (hfo : FilesOnly l) : FilesOnly (setEntry l name (Entry.file c)) := by
  intro p hp
  rcases List.mem_append.mp hp with h1 | h2
  · exact hfo p (List.mem_of_mem_filter h1)
  · rw [List.mem_singleton.mp h2]
    exact ⟨c, rfl⟩

theorem write_file_ok (fs : FS) (dirname fn data : String)
    (ch : List (String × Entry))
    (hdir : lookupEntry fs dirname = some (Entry.dir ch)) (hfo : FilesOnly ch) :
    write_file fs dirname fn data =
      Except.ok (setEntry fs dirname
        (Entry.dir (setEntry ch fn (Entry.file data)))) := by
  cases hc : lookupEntry ch fn with
  | none => simp [write_file, hdir, hc]
  | some e =>
    obtain ⟨c, hce⟩ := FilesOnly_lookup hfo hc
    subst hce
    simp [write_file, hdir, hc]

/-- Main specification of the write loop: starting from a filesystem where
`dirname` is a directory whose children are all regular files, running any
task list whose target file names are pairwise distinct succeeds, each task's
file ends up holding that task's chunk, files the tasks do not target are
unchanged, and entries outside `dirname` are unchanged. -/
theorem run_tasks_spec (dirname : String) (tasks : List (Nat × String)) (fs : FS)
    (ch : List (String × Entry))
    (hdir : lookupEntry fs dirname = some (Entry.dir ch))
    (hfo : FilesOnly ch)
    (hnd : (tasks.map (fun t => fname t.1)).Nodup) :
    ∃ fs2 ch2, run_tasks dirname tasks fs = Except.ok fs2 ∧
      lookupEntry fs2 dirname = some (Entry.dir ch2) ∧
      FilesOnly ch2 ∧
      (∀ t ∈ tasks, lookupEntry ch2 (fname t.1) = some (Entry.file t.2)) ∧
      (∀ name, (∀ t ∈ tasks, fname t.1 ≠ name) →
        lookupEntry ch2 name = lookupEntry ch name) ∧
      (∀ other, other ≠ dirname → lookupEntry fs2 other = lookupEntry fs other) := by
  induction tasks generalizing fs ch with
  | nil =>
    exact ⟨fs, ch, rfl, hdir, hfo, by simp, fun name _ => rfl, fun other _ => rfl⟩
  | cons t rest ih =>
    have hw := write_file_ok fs dirname (fname t.1) t.2 ch hdir hfo
    have hch1 := lookupEntry_setEntry_self fs dirname
      (Entry.dir (setEntry ch (fname t.1) (Entry.file t.2)))
    have hfo1 := FilesOnly_setEntry (fname t.1) t.2 hfo
    rw [List.map_cons, List.nodup_cons] at hnd
    obtain ⟨fs2, ch2, hrun, hdir2, hfo2, hcont, hold, hoth⟩ :=
      ih _ _ hch1 hfo1 hnd.2
    refine ⟨fs2, ch2, ?_, hdir2, hfo2, ?_, ?_, ?_⟩
    · simp only [run_tasks]
      rw [hw]
      exact hrun
    · intro u hu
      rcases List.mem_cons.mp hu with rfl | htail
      · rw [hold (fname u.1)
          (fun r hr heq => hnd.1 (heq ▸ List.mem_map_of_mem (fun t => fname t.1) hr))]
        exact lookupEntry_setEntry_self ch (fname u.1) (Entry.file u.2)
      · exact hcont u htail
    · intro name hn
      rw [hold name (fun r hr => hn r (List.mem_cons_of_mem t hr))]
      exact lookupEntry_setEntry_ne ch (fname t.1) name (Entry.file t.2)
        (Ne.symm (hn t (List.mem_cons_self t rest)))
    · intro other ho
      rw [hoth other ho]
      exact lookupEntry_setEntry_ne fs dirname other
        (Entry.dir (setEntry ch (fname t.1) (Entry.file t.2))) ho

/-- Totality of the write loop without any distinctness assumption: used for
the harness-level theorems, where only success and preservation of the other
directories matter. -/
theorem run_tasks_total (dirname : String) (tasks : List (Nat × String))
    (fs : FS) (ch : List (String × Entry))
    (hdir : lookupEntry fs dirname = some (Entry.dir ch)) (hfo : FilesOnly ch) :
    ∃ fs2 ch2, run_tasks dirname tasks fs = Except.ok fs2 ∧
      lookupEntry fs2 dirname = some (Entry.dir ch2) ∧
      FilesOnly ch2 ∧
      (∀ other, other ≠ dirname → lookupEntry fs2 other = lookupEntry fs other) := by
  induction tasks generalizing fs ch with
  | nil => exact ⟨fs, ch, rfl, hdir, hfo, fun other _ => rfl⟩
  | cons t rest ih =>
    have hw := write_file_ok fs dirname (fname t.1) t.2 ch hdir hfo
    obtain ⟨fs2, ch2, hrun, hdir2, hfo2, hoth⟩ :=
      ih (setEntry fs dirname (Entry.dir (setEntry ch (fname t.1) (Entry.file t.2))))
        (setEntry ch (fname t.1) (Entry.file t.2))
        (lookupEntry_setEntry_self fs dirname _)
        (FilesOnly_setEntry (fname t.1) t.2 hfo)
    refine ⟨fs2, ch2, ?_, hdir2, hfo2, ?_⟩
    · simp only [run_tasks]
      rw [hw]
      exact hrun
    · intro other ho
      rw [hoth other ho]
      exact lookupEntry_setEntry_ne fs dirname other _ ho

/-! ### Injectivity of the decimal file names -/

theorem digitChar_injOn :
    ∀ a < 10, ∀ b < 10, Nat.digitChar a = Nat.digitChar b → a = b := by
  decide

theorem map_digitChar_inj : ∀ (l1 l2 : List Nat), (∀ x ∈ l1, x < 10) →
    (∀ x ∈ l2, x < 10) → l1.map Nat.digitChar = l2.map Nat.digitChar → l1 = l2
  | [], [], _, _, _ => rfl
  | [], _ :: _, _, _, h => by cases h
  | _ :: _, [], _, _, h => by cases h
  | a :: l1, b :: l2, h1, h2, h => by
    simp only [List.map_cons, List.cons.injEq] at h
    have hab : a = b :=
      digitChar_injOn a (h1 a (List.mem_cons_self a l1))
        (b) (h2 b (List.mem_cons_self b l2)) h.1
    subst hab
    rw [map_digitChar_inj l1 l2 (fun x hx => h1 x (List.mem_cons_of_mem a hx))
      (fun x hx => h2 x (List.mem_cons_of_mem a hx)) h.2]

theorem toDigitsCore_eq_digits (f : Nat) :
    ∀ (n : Nat) (ds : List Char), n ≠ 0 → n < f →
      Nat.toDigitsCore 10 f n ds =
        ((Nat.digits 10 n).map Nat.digitChar).reverse ++ ds := by
  induction f with
  | zero => intro n ds hn hf; omega
  | succ f ih =>
    intro n ds hn hf
    rw [Nat.digits_def' (by norm_num : (1:ℕ) < 10) (Nat.pos_of_ne_zero hn)]
    by_cases hd : n / 10 = 0
    · have hlt : n < 10 := by omega
      simp [Nat.toDigitsCore, hd, Nat.mod_eq_of_lt hlt]
    · have hn10 : n / 10 < f := by
        have h1 : n / 10 < n := Nat.div_lt_self (Nat.pos_of_ne_zero hn) (by norm_num)
        omega
      simp only [Nat.toDigitsCore, hd, if_false]
      rw [ih (n / 10) (Nat.digitChar (n % 10) :: ds) hd hn10]
      simp [List.append_assoc]

theorem repr_eq_of_ne_zero (n : Nat) (hn : n ≠ 0) :
    Nat.repr n = (((Nat.digits 10 n).map Nat.digitChar).reverse).asString := by
  show (Nat.toDigits 10 n).asString = _
  rw [Nat.toDigits, toDigitsCore_eq_digits (n + 1) n [] hn (Nat.lt_succ_self n),
    List.append_nil]

theorem repr_injective : ∀ m n : Nat, Nat.repr m = Nat.repr n → m = n := by
  have hzero : ∀ n : Nat, n ≠ 0 → Nat.repr n ≠ Nat.repr 0 := by
    intro n hn h
    rw [repr_eq_of_ne_zero n hn] at h
    have h0 : Nat.repr 0 = (['0'] : List Char).asString := by decide
    rw [h0, List.asString_inj] at h
    have hmap : (Nat.digits 10 n).map Nat.digitChar = ['0'] := by
      have := congrArg List.reverse h
      simpa using this
    have hdig : Nat.digits 10 n = [0] := by
      have h9 : ∀ x ∈ Nat.digits 10 n, x < 10 :=
        fun x hx => Nat.digits_lt_base (by norm_num) hx
      have h02 : ((0 : Nat) :: []).map Nat.digitChar = ['0'] := by decide
      exact map_digitChar_inj _ _ h9 (by intro x hx; simp at hx; omega)
        (hmap.trans h02.symm)
    have h1 := Nat.ofDigits_digits 10 n
    rw [hdig] at h1
    simp only [Nat.ofDigits_cons, Nat.ofDigits_nil, Nat.cast_zero] at h1
    omega
  intro m n h
  by_cases hm : m = 0
  · by_cases hn : n = 0
    · rw [hm, hn]
    · exact absurd (hm ▸ h).symm (hzero n hn)
  · by_cases hn : n = 0
    · exact absurd (hn ▸ h) (hzero m hm)
    · rw [repr_eq_of_ne_zero m hm, repr_eq_of_ne_zero n hn,
        List.asString_inj, List.reverse_inj] at h
      have hd := map_digitChar_inj _ _
        (fun x hx => Nat.digits_lt_base (by norm_num) hx)
        (fun x hx => Nat.digits_lt_base (by norm_num) hx) h
      exact Nat.digits_inj_iff.mp hd

theorem fname_injective : ∀ i j : Nat, fname i = fname j → i = j := by
  intro i j h
  have hdata : (Nat.repr i).data ++ ".txt".data = (Nat.repr j).data ++ ".txt".data := by
    have := congrArg String.data h
    simpa [fname, String.data_append] using this
  have hrepr : (Nat.repr i).data = (Nat.repr j).data :=
    List.append_cancel_right hdata
  exact repr_injective i j (String.toList_inj.mp hrepr)

/-! ### Reset and deletion lemmas -/

theorem setEntry_setEntry (l : List (String × Entry)) (name : String)
    (e1 e2 : Entry) : setEntry (setEntry l name e1) name e2 = setEntry l name e2 := by
  show eraseEntry (setEntry l name e1) name ++ [(name, e2)] = setEntry l name e2
  rw [eraseEntry_setEntry]
  rfl

theorem delete_dir_ok (fs : FS) (dirname : String)
    (h : isFileEntry (lookupEntry fs dirname) = false) :
    ∃ fs2, delete_dir fs dirname = Except.ok fs2 ∧
      lookupEntry fs2 dirname = none ∧
      (∀ other, other ≠ dirname → lookupEntry fs2 other = lookupEntry fs other) := by
  cases hl : lookupEntry fs dirname with
  | none => exact ⟨fs, by simp [delete_dir, hl], hl, fun other _ => rfl⟩
  | some e =>
    cases e with
    | file c => simp [isFileEntry, hl] at h
    | dir ch =>
      exact ⟨eraseEntry fs dirname, by simp [delete_dir, hl],
        lookupEntry_eraseEntry_self fs dirname,
        fun other ho => lookupEntry_eraseEntry_ne fs dirname other ho⟩

theorem reset_ok (fs : FS) (dirname : String)
    (h : isFileEntry (lookupEntry fs dirname) = false) :
    reset fs dirname = Except.ok (setEntry fs dirname (Entry.dir [])) := by
  cases hl : lookupEntry fs dirname with
  | none => simp [reset, delete_dir, hl, make_dir]
  | some e =>
    cases e with
    | file c => simp [isFileEntry, hl] at h
    | dir ch =>
      simp only [reset, delete_dir, hl, make_dir, lookupEntry_eraseEntry_self]
      rw [setEntry, eraseEntry_eraseEntry, setEntry]

/-! ### Claim C3 -/

/-- **C3** (corrected): provided no regular file occupies the label's path,
`reset` (`delete_dir` then `make_dir`) is idempotent: the first call succeeds
and leaves an existing empty directory at the label's path, and a second call
succeeds and returns the very same filesystem state, whether or not the
directory existed beforehand.  The original claim's "starting from any
filesystem state" is cut down by the proviso: with a regular file at the
path the call raises (see the counterexample). -/
theorem c3_reset_idempotent (fs : FS) (dirname : String)
    (h : isFileEntry (lookupEntry fs dirname) = false) :
    ∃ fs2, reset fs dirname = Except.ok fs2 ∧
      lookupEntry fs2 dirname = some (Entry.dir []) ∧
      reset fs2 dirname = Except.ok fs2 := by
  refine ⟨setEntry fs dirname (Entry.dir []), reset_ok fs dirname h,
    lookupEntry_setEntry_self fs dirname (Entry.dir []), ?_⟩
  have h2 : isFileEntry
      (lookupEntry (setEntry fs dirname (Entry.dir [])) dirname) = false := by
    rw [lookupEntry_setEntry_self]
    rfl
  rw [reset_ok _ dirname h2, setEntry_setEntry]

/-- Witness for C3: a concrete state where the directory exists and is
nonempty before the reset. -/
theorem c3_reset_idempotent_witness :
    ∃ fs2, reset [("aiofiles", Entry.dir [("0.txt", Entry.file "A")])] "aiofiles" =
        Except.ok fs2 ∧
      lookupEntry fs2 "aiofiles" = some (Entry.dir []) ∧
      reset fs2 "aiofiles" = Except.ok fs2 :=
  c3_reset_idempotent [("aiofiles", Entry.dir [("0.txt", Entry.file "A")])]
    "aiofiles" rfl

/-- **C3** counterexample to the claim as stated: from a filesystem state
where a regular file occupies the label's path, the reset raises
(`shutil.rmtree` of a file raises `NotADirectoryError`) instead of leaving an
empty directory, so "starting from any filesystem state … neither call
raises" is false. -/
theorem c3_counterexample :
    reset [("aiofiles", Entry.file "stale")] "aiofiles" =
      Except.error FsError.notADirectory := rfl

/-! ### Claim C8 -/

/-- **C8** (corrected): `delete_dir` on a label where nothing at all exists
returns without raising and leaves the filesystem unchanged, and on a label
bound to a directory removes it recursively — the whole entry including all
contents — leaving every other entry unchanged.  The original claim's "whose
directory does not exist" also admits a regular file at the path, on which
`shutil.rmtree` raises (see the counterexample). -/
theorem c8_delete_dir (fs : FS) (dirname : String) :
    (lookupEntry fs dirname = none → delete_dir fs dirname = Except.ok fs) ∧
    (∀ ch, lookupEntry fs dirname = some (Entry.dir ch) →
      delete_dir fs dirname = Except.ok (eraseEntry fs dirname) ∧
      lookupEntry (eraseEntry fs dirname) dirname = none ∧
      (∀ other, other ≠ dirname →
        lookupEntry (eraseEntry fs dirname) other = lookupEntry fs other)) := by
  constructor
  · intro h
    simp [delete_dir, h]
  · intro ch h
    exact ⟨by simp [delete_dir, h], lookupEntry_eraseEntry_self fs dirname,
      fun other ho => lookupEntry_eraseEntry_ne fs dirname other ho⟩

/-- Witness for C8: the absent-path case on the empty filesystem and the
existing-directory case on a directory with one file inside. -/
theorem c8_delete_dir_witness :
    delete_dir ([] : FS) "executor" = Except.ok [] ∧
    delete_dir [("executor", Entry.dir [("0.txt", Entry.file "A")])] "executor" =
      Except.ok (eraseEntry [("executor", Entry.dir [("0.txt", Entry.file "A")])]
        "executor") :=
  ⟨(c8_delete_dir [] "executor").1 rfl,
   ((c8_delete_dir [("executor", Entry.dir [("0.txt", Entry.file "A")])]
      "executor").2 [("0.txt", Entry.file "A")] rfl).1⟩

/-- **C8** counterexample to the claim as stated: with a regular file at the
label's path, the directory does not exist, yet `delete_dir` raises instead
of leaving the filesystem unchanged. -/
theorem c8_counterexample :
    lookupEntry [("executor", Entry.file "x")] "executor" =
      some (Entry.file "x") ∧
    delete_dir [("executor", Entry.file "x")] "executor" =
      Except.error FsError.notADirectory :=
  ⟨rfl, rfl⟩

/-! ### Chunk-generator lemmas -/

theorem choices_spec (chars : List Char) (k : Nat) (s : RandomState)
    (hne : chars ≠ []) :
    (choices chars k s).1.length = k ∧
    (∀ c ∈ (choices chars k s).1, c ∈ chars) ∧
    (choices chars k s).2 = ⟨s.stream, s.pos + k⟩ := by
  refine ⟨by simp [choices], ?_, rfl⟩
  intro c hc
  simp only [choices, List.mem_map, List.mem_range] at hc
  obtain ⟨i, hi, rfl⟩ := hc
  have hpos : 0 < chars.length := List.length_pos.mpr hne
  have hlt : s.stream (s.pos + i) % chars.length < chars.length :=
    Nat.mod_lt _ hpos
  rw [List.getD_eq_getElem chars 'A' hlt]
  exact List.getElem_mem hlt

theorem random_string_spec (count : Nat) (s : RandomState) :
    (random_string count defaultChars s).1.length = count ∧
    (∀ c ∈ (random_string count defaultChars s).1.toList, c ∈ defaultChars) ∧
    (random_string count defaultChars s).2 = ⟨s.stream, s.pos + count⟩ := by
  have hne : defaultChars ≠ [] := by decide
  obtain ⟨h1, h2, h3⟩ := choices_spec defaultChars count s hne
  refine ⟨?_, ?_, h3⟩
  · simp only [random_string, List.length_asString]
    exact h1
  · intro c hc
    apply h2
    simpa [random_string, List.toList_asString] using hc

theorem generate_random_chunks_spec (count size : Nat) (s : RandomState) :
    (generate_random_chunks count size s).1.length = count ∧
    (∀ c ∈ (generate_random_chunks count size s).1,
      c.length = size ∧ ∀ ch ∈ c.toList, ch ∈ defaultChars) ∧
    (generate_random_chunks count size s).2 =
      ⟨s.stream, s.pos + count * size⟩ := by
  induction count generalizing s with
  | zero =>
    refine ⟨rfl, by simp [generate_random_chunks], ?_⟩
    show s = _
    simp
  | succ n ih =>
    obtain ⟨h1, h2, h3⟩ := random_string_spec size s
    obtain ⟨g1, g2, g3⟩ := ih (random_string size defaultChars s).2
    refine ⟨?_, ?_, ?_⟩
    · simp only [generate_random_chunks, List.length_cons]
      rw [g1]
    · intro c hc
      rcases List.mem_cons.mp hc with rfl | htail
      · exact ⟨h1, h2⟩
      · exact g2 c htail
    · show (generate_random_chunks n size (random_string size defaultChars s).2).2 = _
      rw [g3, h3]
      have : s.pos + size + n * size = s.pos + (n + 1) * size := by ring
      simp [this]

/-! ### Claim C2 -/

/-- **C2** (corrected): `generate_random_chunks(count, size)` returns exactly
`count` strings, each of exactly `size` characters, every character drawn
from the alphabet `{A-Z, 0-9}`, touching no filesystem state; its one side
effect is advancing the global pseudo-random generator's position by
`count * size` draws.  The original claim's "no mutation of shared state"
fails for that shared generator state (see the counterexample). -/
theorem c2_generate_random_chunks (count size : Nat) (s : RandomState) :
    (generate_random_chunks count size s).1.length = count ∧
    (∀ c ∈ (generate_random_chunks count size s).1,
      c.length = size ∧ ∀ ch ∈ c.toList, ch ∈ defaultChars) ∧
    (generate_random_chunks count size s).2 =
      ⟨s.stream, s.pos + count * size⟩ :=
  generate_random_chunks_spec count size s

/-- Witness for C2 at a concrete call. -/
theorem c2_generate_random_chunks_witness :
    (generate_random_chunks 2 3 ⟨fun _ => 0, 0⟩).1.length = 2 ∧
    ∀ c ∈ (generate_random_chunks 2 3 ⟨fun _ => 0, 0⟩).1, c.length = 3 :=
  ⟨(c2_generate_random_chunks 2 3 ⟨fun _ => 0, 0⟩).1,
   fun c hc => ((c2_generate_random_chunks 2 3 ⟨fun _ => 0, 0⟩).2.1 c hc).1⟩

/-- **C2** counterexample to "no mutation of shared state" as stated: a
concrete call advances the global generator's position (here from 0 to 6),
so the shared generator observed by any later caller differs from the one
`generate_random_chunks` started from. -/
theorem c2_counterexample :
    (generate_random_chunks 2 3 ⟨fun _ => 0, 0⟩).2.pos ≠
      (⟨fun _ => 0, 0⟩ : RandomState).pos := by
  decide

/-! ### Claim C4 -/

/-- **C4** (confirmed): the timing wrapper (`timeit` delegating to
`perf_manager`) passes the wrapped computation's result through unchanged on
normal completion; and when the computation raises, the scope-exit block
still appends the elapsed-time line to the output and the very same error
propagates to the caller — the error is never swallowed and the print never
skipped. -/
theorem c4_perf_manager (description : String) (t0 t1 : ℚ)
    (body : List String × Except FsError FS) :
    ((perf_manager description t0 t1 body).1 =
      body.1 ++ [timeLine description t0 t1]) ∧
    ((perf_manager description t0 t1 body).2 = body.2) ∧
    (∀ a, body.2 = Except.ok a →
      (perf_manager description t0 t1 body).2 = Except.ok a) ∧
    (∀ e, body.2 = Except.error e →
      (perf_manager description t0 t1 body).2 = Except.error e) ∧
    (∀ (func : FS → List String × Except FsError FS) (fs : FS),
      timeit description t0 t1 func fs = perf_manager description t0 t1 (func fs)) :=
  ⟨rfl, rfl, fun _ h => h, fun _ h => h, fun _ _ => rfl⟩

/-- Witness for C4: one normally-completing and one raising body, both with
the elapsed-time line printed. -/
theorem c4_perf_manager_witness :
    (perf_manager "Dirs.FILE    " 0 1 ([], Except.ok ([] : FS))).2 =
      Except.ok ([] : FS) ∧
    (perf_manager "Dirs.FILE    " 0 1
      ([], (Except.error FsError.fileNotFound : Except FsError FS))).2 =
      Except.error FsError.fileNotFound ∧
    (perf_manager "Dirs.FILE    " 0 1
      ([], (Except.error FsError.fileNotFound : Except FsError FS))).1 =
      [timeLine "Dirs.FILE    " 0 1] :=
  ⟨(c4_perf_manager "Dirs.FILE    " 0 1 ([], Except.ok [])).2.2.1 [] rfl,
   (c4_perf_manager "Dirs.FILE    " 0 1
     ([], Except.error FsError.fileNotFound)).2.2.2.1 FsError.fileNotFound rfl,
   ((c4_perf_manager "Dirs.FILE    " 0 1
     ([], Except.error FsError.fileNotFound)).1).trans (List.nil_append _)⟩

/-! ### Sequential-trace lemmas -/

theorem seqWriteTrace_succ (n : Nat) :
    seqWriteTrace (n + 1) =
      seqWriteTrace n ++ [WriteEvent.start n, WriteEvent.finish n] := by
  simp [seqWriteTrace, List.range_succ]

theorem seqWriteTrace_length (n : Nat) : (seqWriteTrace n).length = 2 * n := by
  induction n with
  | zero => rfl
  | succ n ih =>
    rw [seqWriteTrace_succ, List.length_append, ih]
    simp
    omega

theorem seqWriteTrace_getElem (n k : Nat) (hk : k < n) :
    (seqWriteTrace n)[2 * k]? = some (WriteEvent.start k) ∧
    (seqWriteTrace n)[2 * k + 1]? = some (WriteEvent.finish k) := by
  induction n with
  | zero => omega
  | succ n ih =>
    rw [seqWriteTrace_succ]
    by_cases h : k < n
    · obtain ⟨h1, h2⟩ := ih h
      constructor
      · rw [List.getElem?_append_left (by rw [seqWriteTrace_length]; omega)]
        exact h1
      · rw [List.getElem?_append_left (by rw [seqWriteTrace_length]; omega)]
        exact h2
    · have hk2 : k = n := by omega
      subst hk2
      constructor
      · rw [List.getElem?_append_right (by rw [seqWriteTrace_length])]
        rw [seqWriteTrace_length]
        simp
      · rw [List.getElem?_append_right (by rw [seqWriteTrace_length]; omega)]
        rw [seqWriteTrace_length]
        simp

/-! ### Claim C5 -/

/-- **C5** (confirmed): in Variants A (`aiofiles`), B (`aiofile`) and C
(direct-sync), whose loops all produce the trace `seqWriteTrace N`, the
writes occur in strict index order: write `i` occupies positions `2*i`
(start) and `2*i + 1` (finish) of the trace, so for `i < j` the write of
`i.txt` finishes strictly before the write of `j.txt` starts, the intervals
of two distinct writes never overlap, and the trace consists of exactly
these `2*N` events. -/
theorem c5_sequential_order (n i j : Nat) (hij : i < j) (hj : j < n) :
    (seqWriteTrace n)[2 * i]? = some (WriteEvent.start i) ∧
    (seqWriteTrace n)[2 * i + 1]? = some (WriteEvent.finish i) ∧
    (seqWriteTrace n)[2 * j]? = some (WriteEvent.start j) ∧
    2 * i + 1 < 2 * j ∧
    (seqWriteTrace n).length = 2 * n := by
  obtain ⟨hi1, hi2⟩ := seqWriteTrace_getElem n i (by omega)
  obtain ⟨hj1, _⟩ := seqWriteTrace_getElem n j hj
  exact ⟨hi1, hi2, hj1, by omega, seqWriteTrace_length n⟩

/-- Witness for C5 at `n = 3`, `i = 0`, `j = 2`. -/
theorem c5_sequential_order_witness :
    (seqWriteTrace 3)[2 * 0]? = some (WriteEvent.start 0) ∧
    (seqWriteTrace 3)[2 * 0 + 1]? = some (WriteEvent.finish 0) ∧
    (seqWriteTrace 3)[2 * 2]? = some (WriteEvent.start 2) ∧
    2 * 0 + 1 < 2 * 2 ∧
    (seqWriteTrace 3).length = 2 * 3 :=
  c5_sequential_order 3 0 2 (by decide) (by decide)

/-! ### Variant-output lemmas -/

theorem enum_fnames_nodup (chunks : List String) :
    (chunks.enum.map (fun t => fname t.1)).Nodup := by
  have h1 : chunks.enum.map (fun t => fname t.1) =
      (List.range chunks.length).map fname := by
    rw [← List.enum_map_fst chunks, List.map_map]
    rfl
  rw [h1]
  exact (List.nodup_range _).map (fun a b h => fname_injective a b h)

theorem order_fnames_nodup (chunks : List String) (order : List (Nat × String))
    (hperm : order.Perm chunks.enum) :
    (order.map (fun t => fname t.1)).Nodup :=
  ((hperm.map (fun t => fname t.1)).nodup_iff).mpr (enum_fnames_nodup chunks)

theorem variant_output_of_run (chunks : List String) (tasks : List (Nat × String))
    (dirname : String) (fs : FS)
    (hdir : lookupEntry fs dirname = some (Entry.dir []))
    (hnd : (tasks.map (fun t => fname t.1)).Nodup)
    (hmem : ∀ t, t ∈ tasks ↔ t ∈ chunks.enum) :
    ∃ ch, VariantOutput chunks (run_tasks dirname tasks fs) dirname ch := by
  have hfo : FilesOnly ([] : List (String × Entry)) :=
    fun p hp => absurd hp (List.not_mem_nil p)
  obtain ⟨fs2, ch2, hrun, hdir2, _, hcont, hold, _⟩ :=
    run_tasks_spec dirname tasks fs [] hdir hfo hnd
  refine ⟨ch2, ⟨fs2, hrun, hdir2⟩, ?_, ?_⟩
  · intro i c hic
    exact hcont (i, c)
      ((hmem (i, c)).mpr (List.mk_mem_enum_iff_getElem?.mpr hic))
  · intro name
    constructor
    · rintro ⟨e, he⟩
      by_contra hno
      push_neg at hno
      have huntouched : ∀ t ∈ tasks, fname t.1 ≠ name := by
        intro t ht heq
        have htm : chunks[t.1]? = some t.2 :=
          List.mk_mem_enum_iff_getElem?.mp (by
            have := (hmem t).mp ht
            exact this)
        have hlt : t.1 < chunks.length := by
          rcases List.getElem?_eq_some.mp htm with ⟨hh, _⟩
          exact hh
        exact hno t.1 hlt heq.symm
      rw [hold name huntouched] at he
      cases he
    · rintro ⟨i, hi, rfl⟩
      have hc : chunks[i]? = some chunks[i] := List.getElem?_eq_getElem hi
      exact ⟨Entry.file chunks[i], hcont (i, chunks[i])
        ((hmem (i, chunks[i])).mpr (List.mk_mem_enum_iff_getElem?.mpr hc))⟩

theorem variant_listing_eq (chunks : List String) (r1 r2 : Except FsError FS)
    (d1 d2 : String) (ch1 ch2 : List (String × Entry))
    (h1 : VariantOutput chunks r1 d1 ch1) (h2 : VariantOutput chunks r2 d2 ch2) :
    ∀ name, lookupEntry ch1 name = lookupEntry ch2 name := by
  intro name
  by_cases h : ∃ i, i < chunks.length ∧ name = fname i
  · obtain ⟨i, hi, rfl⟩ := h
    have hc : chunks[i]? = some chunks[i] := List.getElem?_eq_getElem hi
    rw [h1.2.1 i chunks[i] hc, h2.2.1 i chunks[i] hc]
  · have e1 : lookupEntry ch1 name = none := by
      cases he : lookupEntry ch1 name with
      | none => rfl
      | some e => exact absurd ((h1.2.2 name).mp ⟨e, he⟩) h
    have e2 : lookupEntry ch2 name = none := by
      cases he : lookupEntry ch2 name with
      | none => rfl
      | some e => exact absurd ((h2.2.2 name).mp ⟨e, he⟩) h
    rw [e1, e2]

/-! ### Claim C1 -/

/-- **C1** (confirmed): given the same chunk list of length `N`, each of the
four strategy variants produces under its own directory exactly the files
`0.txt` … `(N-1).txt`, the content of `i.txt` equal to `chunks[i]`
byte-for-byte; the (name, content) map produced is identical across the four
variants — for the pooled-executor variant under every completion order of
its three-worker pool. -/
theorem c1_variants_equivalent (chunks : List String)
    (order : List (Nat × String)) (hperm : order.Perm chunks.enum)
    (fsA fsB fsC fsD : FS)
    (hA : lookupEntry fsA Dirs.AIOFILES.value = some (Entry.dir []))
    (hB : lookupEntry fsB Dirs.AIOFILE.value = some (Entry.dir []))
    (hC : lookupEntry fsC Dirs.FILE.value = some (Entry.dir []))
    (hD : lookupEntry fsD Dirs.EXECUTOR.value = some (Entry.dir [])) :
    ∃ chA chB chC chD,
      VariantOutput chunks (test_aiofiles_run chunks fsA) Dirs.AIOFILES.value chA ∧
      VariantOutput chunks (test_aiofile_run chunks fsB) Dirs.AIOFILE.value chB ∧
      VariantOutput chunks (test_file_run chunks fsC) Dirs.FILE.value chC ∧
      VariantOutput chunks (test_executor_run order fsD) Dirs.EXECUTOR.value chD ∧
      (∀ name, lookupEntry chB name = lookupEntry chA name) ∧
      (∀ name, lookupEntry chC name = lookupEntry chA name) ∧
      (∀ name, lookupEntry chD name = lookupEntry chA name) := by
  obtain ⟨chA, hA2⟩ := variant_output_of_run chunks chunks.enum
    Dirs.AIOFILES.value fsA hA (enum_fnames_nodup chunks) (fun t => Iff.rfl)
  obtain ⟨chB, hB2⟩ := variant_output_of_run chunks chunks.enum
    Dirs.AIOFILE.value fsB hB (enum_fnames_nodup chunks) (fun t => Iff.rfl)
  obtain ⟨chC, hC2⟩ := variant_output_of_run chunks chunks.enum
    Dirs.FILE.value fsC hC (enum_fnames_nodup chunks) (fun t => Iff.rfl)
  obtain ⟨chD, hD2⟩ := variant_output_of_run chunks order
    Dirs.EXECUTOR.value fsD hD (order_fnames_nodup chunks order hperm)
    (fun t => hperm.mem_iff)
  exact ⟨chA, chB, chC, chD, hA2, hB2, hC2, hD2,
    variant_listing_eq chunks _ _ _ _ _ _ hB2 hA2,
    variant_listing_eq chunks _ _ _ _ _ _ hC2 hA2,
    variant_listing_eq chunks _ _ _ _ _ _ hD2 hA2⟩

/-- Witness for C1: two chunks, the executor pool completing in reversed
order, each variant starting from its own freshly-reset directory. -/
theorem c1_variants_equivalent_witness :
    ∃ chA chB chC chD,
      VariantOutput ["AB", "C"]
        (test_aiofiles_run ["AB", "C"] [("aiofiles", Entry.dir [])])
        Dirs.AIOFILES.value chA ∧
      VariantOutput ["AB", "C"]
        (test_aiofile_run ["AB", "C"] [("aiofile", Entry.dir [])])
        Dirs.AIOFILE.value chB ∧
      VariantOutput ["AB", "C"]
        (test_file_run ["AB", "C"] [("file", Entry.dir [])])
        Dirs.FILE.value chC ∧
      VariantOutput ["AB", "C"]
        (test_executor_run [(1, "C"), (0, "AB")] [("executor", Entry.dir [])])
        Dirs.EXECUTOR.value chD ∧
      (∀ name, lookupEntry chB name = lookupEntry chA name) ∧
      (∀ name, lookupEntry chC name = lookupEntry chA name) ∧
      (∀ name, lookupEntry chD name = lookupEntry chA name) :=
  c1_variants_equivalent ["AB", "C"] [(1, "C"), (0, "AB")] (by decide)
    [("aiofiles", Entry.dir [])] [("aiofile", Entry.dir [])]
    [("file", Entry.dir [])] [("executor", Entry.dir [])] rfl rfl rfl rfl

/-! ### Harness lemmas -/

theorem setup_dirs_spec : ∀ (ds : List Dirs) (fs : FS),
    (∀ d ∈ ds, isFileEntry (lookupEntry fs d.value) = false) →
    ∃ fs2, setup_dirs ds fs = Except.ok fs2 ∧
      (∀ d ∈ ds, lookupEntry fs2 d.value = some (Entry.dir [])) ∧
      (∀ name, (∀ d ∈ ds, d.value ≠ name) →
        lookupEntry fs2 name = lookupEntry fs name)
  | [], fs, _ => ⟨fs, rfl, by simp, fun name _ => rfl⟩
  | d :: rest, fs, h => by
    have hd := reset_ok fs d.value (h d (List.mem_cons_self d rest))
    have hrest : ∀ d2 ∈ rest,
        isFileEntry (lookupEntry (setEntry fs d.value (Entry.dir [])) d2.value) = false := by
      intro d2 hd2
      by_cases he : d2.value = d.value
      · rw [he, lookupEntry_setEntry_self]
        rfl
      · rw [lookupEntry_setEntry_ne fs d.value d2.value (Entry.dir []) he]
        exact h d2 (List.mem_cons_of_mem d hd2)
    obtain ⟨fs2, hrun, hdirs, hpres⟩ :=
      setup_dirs_spec rest (setEntry fs d.value (Entry.dir [])) hrest
    refine ⟨fs2, ?_, ?_, ?_⟩
    · simp only [setup_dirs]
      rw [hd]
      exact hrun
    · intro d2 hd2
      rcases List.mem_cons.mp hd2 with rfl | htail
      · by_cases hex : ∃ d3 ∈ rest, d3.value = d2.value
        · obtain ⟨d3, h3, he⟩ := hex
          rw [← he]
          exact hdirs d3 h3
        · push_neg at hex
          rw [hpres d2.value hex]
          exact lookupEntry_setEntry_self fs d2.value (Entry.dir [])
      · exact hdirs d2 htail
    · intro name hn
      rw [hpres name (fun d3 h3 => hn d3 (List.mem_cons_of_mem d h3))]
      exact lookupEntry_setEntry_ne fs d.value name (Entry.dir [])
        (Ne.symm (hn d (List.mem_cons_self d rest)))

theorem teardown_dirs_ok : ∀ (ds : List Dirs) (fs : FS),
    (∀ d ∈ ds, isFileEntry (lookupEntry fs d.value) = false) →
    ∃ fs2, teardown_dirs ds fs = Except.ok fs2
  | [], fs, _ => ⟨fs, rfl⟩
  | d :: rest, fs, h => by
    obtain ⟨fs1, hdel, hnone, hpres⟩ :=
      delete_dir_ok fs d.value (h d (List.mem_cons_self d rest))
    have hrest : ∀ d2 ∈ rest, isFileEntry (lookupEntry fs1 d2.value) = false := by
      intro d2 hd2
      by_cases he : d2.value = d.value
      · rw [he, hnone]
        rfl
      · rw [hpres d2.value he]
        exact h d2 (List.mem_cons_of_mem d hd2)
    obtain ⟨fs2, hrun⟩ := teardown_dirs_ok rest fs1 hrest
    refine ⟨fs2, ?_⟩
    simp only [teardown_dirs]
    rw [hdel]
    exact hrun

theorem run_preserves_cleanDirs (target : Dirs) (hmem : target ∈ dirsMembers)
    (tasks : List (Nat × String)) (fs : FS) (hc : cleanDirs fs) :
    ∃ fs2, run_tasks target.value tasks fs = Except.ok fs2 ∧ cleanDirs fs2 := by
  obtain ⟨ch, hch, hfo⟩ := hc target hmem
  obtain ⟨fs2, ch2, hrun, hdir2, hfo2, hoth⟩ :=
    run_tasks_total target.value tasks fs ch hch hfo
  refine ⟨fs2, hrun, ?_⟩
  intro d hd
  by_cases he : d.value = target.value
  · rw [he]
    exact ⟨ch2, hdir2, hfo2⟩
  · rw [hoth d.value he]
    exact hc d hd

/-- The five stages of `test` all succeed and every intermediate state keeps
the four directories present (with only regular files inside). -/
theorem test_stages (chunks : List String) (order : List (Nat × String))
    (fs : FS)
    (h : ∀ d ∈ dirsMembers, isFileEntry (lookupEntry fs d.value) = false) :
    ∃ fs0 fs1 fs2 fs3 fs4 fs5,
      setup_dirs dirsMembers fs = Except.ok fs0 ∧ cleanDirs fs0 ∧
      test_aiofiles_run chunks fs0 = Except.ok fs1 ∧ cleanDirs fs1 ∧
      test_aiofile_run chunks fs1 = Except.ok fs2 ∧ cleanDirs fs2 ∧
      test_executor_run order fs2 = Except.ok fs3 ∧ cleanDirs fs3 ∧
      test_file_run chunks fs3 = Except.ok fs4 ∧ cleanDirs fs4 ∧
      teardown_dirs dirsMembers fs4 = Except.ok fs5 := by
  obtain ⟨fs0, hsetup, hdirs, _⟩ := setup_dirs_spec dirsMembers fs h
  have hc0 : cleanDirs fs0 := fun d hd =>
    ⟨[], hdirs d hd, fun p hp => absurd hp (List.not_mem_nil p)⟩
  obtain ⟨fs1, h1, hc1⟩ :=
    run_preserves_cleanDirs Dirs.AIOFILES (by decide) chunks.enum fs0 hc0
  obtain ⟨fs2, h2, hc2⟩ :=
    run_preserves_cleanDirs Dirs.AIOFILE (by decide) chunks.enum fs1 hc1
  obtain ⟨fs3, h3, hc3⟩ :=
    run_preserves_cleanDirs Dirs.EXECUTOR (by decide) order fs2 hc2
  obtain ⟨fs4, h4, hc4⟩ :=
    run_preserves_cleanDirs Dirs.FILE (by decide) chunks.enum fs3 hc3
  have hnf4 : ∀ d ∈ dirsMembers, isFileEntry (lookupEntry fs4 d.value) = false := by
    intro d hd
    obtain ⟨ch, hch, _⟩ := hc4 d hd
    rw [hch]
    rfl
  obtain ⟨fs5, h5⟩ := teardown_dirs_ok dirsMembers fs4 hnf4
  exact ⟨fs0, fs1, fs2, fs3, fs4, fs5, hsetup, hc0, h1, hc1, h2, hc2,
    h3, hc3, h4, hc4, h5⟩

/-! ### Claim C6 -/

/-- **C6** (confirmed): the harness deletes and recreates all four strategy
directories before the first strategy runs and deletes all four again only
after the last strategy completes, with no per-strategy reset in between:
in the harness event trace the eight delete/make events come first, then the
four strategy runs, then the four deletes; and every one of the four
directories exists from the initial reset through the start and end of every
strategy's run. -/
theorem c6_reset_window (chunks : List String) (order : List (Nat × String))
    (fs : FS)
    (h : ∀ d ∈ dirsMembers, isFileEntry (lookupEntry fs d.value) = false) :
    (testEvents.take 8 =
      dirsMembers.flatMap fun d =>
        [HarnessEvent.deleteDir d.value, HarnessEvent.makeDir d.value]) ∧
    ((testEvents.drop 8).take 4 =
      [HarnessEvent.runStrategy Dirs.AIOFILES.value,
       HarnessEvent.runStrategy Dirs.AIOFILE.value,
       HarnessEvent.runStrategy Dirs.EXECUTOR.value,
       HarnessEvent.runStrategy Dirs.FILE.value]) ∧
    (testEvents.drop 12 =
      dirsMembers.map fun d => HarnessEvent.deleteDir d.value) ∧
    (∃ fs0 fs1 fs2 fs3 fs4 fs5,
      setup_dirs dirsMembers fs = Except.ok fs0 ∧ allDirsExist fs0 ∧
      test_aiofiles_run chunks fs0 = Except.ok fs1 ∧ allDirsExist fs1 ∧
      test_aiofile_run chunks fs1 = Except.ok fs2 ∧ allDirsExist fs2 ∧
      test_executor_run order fs2 = Except.ok fs3 ∧ allDirsExist fs3 ∧
      test_file_run chunks fs3 = Except.ok fs4 ∧ allDirsExist fs4 ∧
      teardown_dirs dirsMembers fs4 = Except.ok fs5) := by
  refine ⟨rfl, rfl, rfl, ?_⟩
  obtain ⟨fs0, fs1, fs2, fs3, fs4, fs5, hsetup, hc0, h1, hc1, h2, hc2,
    h3, hc3, h4, hc4, h5⟩ := test_stages chunks order fs h
  have toAll : ∀ fsx, cleanDirs fsx → allDirsExist fsx := fun fsx hc d hd =>
    (hc d hd).imp (fun ch hch => hch.1)
  exact ⟨fs0, fs1, fs2, fs3, fs4, fs5, hsetup, toAll fs0 hc0, h1, toAll fs1 hc1,
    h2, toAll fs2 hc2, h3, toAll fs3 hc3, h4, toAll fs4 hc4, h5⟩

/-- Witness for C6: one chunk, the empty starting filesystem. -/
theorem c6_reset_window_witness :
    (testEvents.take 8 =
      dirsMembers.flatMap fun d =>
        [HarnessEvent.deleteDir d.value, HarnessEvent.makeDir d.value]) ∧
    ((testEvents.drop 8).take 4 =
      [HarnessEvent.runStrategy Dirs.AIOFILES.value,
       HarnessEvent.runStrategy Dirs.AIOFILE.value,
       HarnessEvent.runStrategy Dirs.EXECUTOR.value,
       HarnessEvent.runStrategy Dirs.FILE.value]) ∧
    (testEvents.drop 12 =
      dirsMembers.map fun d => HarnessEvent.deleteDir d.value) ∧
    (∃ fs0 fs1 fs2 fs3 fs4 fs5,
      setup_dirs dirsMembers [] = Except.ok fs0 ∧ allDirsExist fs0 ∧
      test_aiofiles_run ["A"] fs0 = Except.ok fs1 ∧ allDirsExist fs1 ∧
      test_aiofile_run ["A"] fs1 = Except.ok fs2 ∧ allDirsExist fs2 ∧
      test_executor_run [(0, "A")] fs2 = Except.ok fs3 ∧ allDirsExist fs3 ∧
      test_file_run ["A"] fs3 = Except.ok fs4 ∧ allDirsExist fs4 ∧
      teardown_dirs dirsMembers fs4 = Except.ok fs5) :=
  c6_reset_window ["A"] [(0, "A")] [] (by intro d _; cases d <;> rfl)

/-! ### Output lemmas -/

theorem andThen_ok (out : List String) (fs : FS)
    (step : FS → List String × Except FsError FS) (out2 : List String)
    (r : Except FsError FS) (hstep : step fs = (out2, r)) :
    andThen (out, Except.ok fs) step = (out ++ out2, r) := by
  simp [andThen, hstep]

/-- On a filesystem without file-entry conflicts, `test` succeeds and prints
exactly the four timing lines, in strategy order, labelled with the
decorators' descriptions. -/
theorem test_output_eq (chunks : List String) (order : List (Nat × String))
    (t : Fin 4 → ℚ × ℚ) (fs : FS)
    (h : ∀ d ∈ dirsMembers, isFileEntry (lookupEntry fs d.value) = false) :
    ∃ fsEnd, test chunks order t fs =
      ([timeLine aiofilesDescription (t 0).1 (t 0).2,
        timeLine aiofileDescription (t 1).1 (t 1).2,
        timeLine executorDescription (t 2).1 (t 2).2,
        timeLine fileDescription (t 3).1 (t 3).2], Except.ok fsEnd) := by
  obtain ⟨fs0, fs1, fs2, fs3, fs4, fs5, hsetup, _, h1, _, h2, _, h3, _, h4, _, h5⟩ :=
    test_stages chunks order fs h
  have htA : test_aiofiles_timed (t 0).1 (t 0).2 chunks fs0 =
      ([timeLine aiofilesDescription (t 0).1 (t 0).2], Except.ok fs1) := by
    simp [test_aiofiles_timed, timeit, perf_manager, h1]
  have htB : test_aiofile_timed (t 1).1 (t 1).2 chunks fs1 =
      ([timeLine aiofileDescription (t 1).1 (t 1).2], Except.ok fs2) := by
    simp [test_aiofile_timed, timeit, perf_manager, h2]
  have htD : test_executor_timed (t 2).1 (t 2).2 order fs2 =
      ([timeLine executorDescription (t 2).1 (t 2).2], Except.ok fs3) := by
    simp [test_executor_timed, timeit, perf_manager, h3]
  have htC : test_file_timed (t 3).1 (t 3).2 chunks fs3 =
      ([timeLine fileDescription (t 3).1 (t 3).2], Except.ok fs4) := by
    simp [test_file_timed, timeit, perf_manager, h4]
  refine ⟨fs5, ?_⟩
  show andThen (andThen (andThen (andThen (andThen
    ([], setup_dirs dirsMembers fs)
    (fun fs => test_aiofiles_timed (t 0).1 (t 0).2 chunks fs))
    (fun fs => test_aiofile_timed (t 1).1 (t 1).2 chunks fs))
    (fun fs => test_executor_timed (t 2).1 (t 2).2 order fs))
    (fun fs => test_file_timed (t 3).1 (t 3).2 chunks fs))
    (fun fs => ([], teardown_dirs dirsMembers fs)) = _
  rw [hsetup]
  rw [andThen_ok [] fs0 _ _ _ htA]
  rw [andThen_ok _ fs1 _ _ _ htB]
  rw [andThen_ok _ fs2 _ _ _ htD]
  rw [andThen_ok _ fs3 _ _ _ htC]
  rw [andThen_ok _ fs4 _ _ _ (by simp only [h5] : (fun fs => (([] : List String),
    teardown_dirs dirsMembers fs)) fs4 = ([], Except.ok fs5))]
  simp

/-! ### Claim C7 -/

/-- **C7** (corrected): the console output of one run is the line
`n=10, chunk_size=10240` first, then exactly one line per strategy of the
form `<description>: <elapsed-ms, 6 decimal places> ms`, then a final
`Exited` line — but the description is the `str()` of the `Dirs` enum member
(`Dirs.AIOFILES`, `Dirs.AIOFILE ` and `Dirs.FILE    ` carrying alignment
padding), not the StrategyLabel string value that names the strategy's
output directory. -/
theorem c7_output_shape (s : RandomState) (order : List (Nat × String))
    (t : Fin 4 → ℚ × ℚ) (fs : FS)
    (h : ∀ d ∈ dirsMembers, isFileEntry (lookupEntry fs d.value) = false) :
    ∃ fsEnd, main s order t fs =
      ("n=10, chunk_size=10240" ::
        timeLine aiofilesDescription (t 0).1 (t 0).2 ::
        timeLine aiofileDescription (t 1).1 (t 1).2 ::
        timeLine executorDescription (t 2).1 (t 2).2 ::
        timeLine fileDescription (t 3).1 (t 3).2 :: ["Exited"],
       Except.ok fsEnd) ∧
      aiofilesDescription = Dirs.AIOFILES.pyStr ∧
      aiofileDescription = Dirs.AIOFILE.pyStr ++ " " ∧
      executorDescription = Dirs.EXECUTOR.pyStr ∧
      fileDescription = Dirs.FILE.pyStr ++ "    " := by
  obtain ⟨fsEnd, htest⟩ := test_output_eq
    (generate_random_chunks main_n main_chunk_size s).1 order t fs h
  refine ⟨fsEnd, ?_, rfl, rfl, rfl, rfl⟩
  simp only [main, htest]
  rfl

/-- Witness for C7 on the empty starting filesystem. -/
theorem c7_output_shape_witness :
    ∃ fsEnd, main ⟨fun _ => 0, 0⟩ [] (fun _ => (0, 1)) [] =
      ("n=10, chunk_size=10240" ::
        timeLine aiofilesDescription 0 1 ::
        timeLine aiofileDescription 0 1 ::
        timeLine executorDescription 0 1 ::
        timeLine fileDescription 0 1 :: ["Exited"],
       Except.ok fsEnd) ∧
      aiofilesDescription = Dirs.AIOFILES.pyStr ∧
      aiofileDescription = Dirs.AIOFILE.pyStr ++ " " ∧
      executorDescription = Dirs.EXECUTOR.pyStr ∧
      fileDescription = Dirs.FILE.pyStr ++ "    " :=
  c7_output_shape ⟨fun _ => 0, 0⟩ [] (fun _ => (0, 1)) []
    (by intro d _; cases d <;> rfl)

/-- **C7** counterexample to the claim as stated: in a concrete run the first
strategy line is `Dirs.AIOFILES: 1.000000 ms`, while the strategy's
StrategyLabel (its output directory name) is `aiofiles`, so the label printed
is not the string value that names the output directory. -/
theorem c7_counterexample :
    (test ["A"] [(0, "A")] (fun _ => (0, 1 / 1000))
        [("aiofiles", Entry.dir []), ("aiofile", Entry.dir []),
         ("file", Entry.dir []), ("executor", Entry.dir [])]).1[0]? =
      some (timeLine aiofilesDescription 0 (1 / 1000)) ∧
    aiofilesDescription ≠ Dirs.AIOFILES.value ∧
    timeLine aiofilesDescription 0 (1 / 1000) ≠
      timeLine Dirs.AIOFILES.value 0 (1 / 1000) := by
  refine ⟨rfl, by decide, ?_⟩
  intro heq
  have hlen := congrArg String.length heq
  have h1 : aiofilesDescription.length = 13 := rfl
  have h2 : (Dirs.AIOFILES.value).length = 8 := rfl
  simp only [timeLine, String.length_append, h1, h2] at hlen
  omega

/-! ### Claim C9 -/

/-- **C9** (confirmed): the run is configured by exactly the two in-code
constants `n = 10` and `chunk_size = 1024 * 10 = 10240` that `main` hands to
the generator (the embedded `main` takes no other configuration input: no
flags, no environment), so every chunk generated in a default run has length
exactly 10240. -/
theorem c9_configuration (s : RandomState) :
    main_n = 10 ∧ main_chunk_size = 10240 ∧
    (generate_random_chunks main_n main_chunk_size s).1.length = 10 ∧
    (∀ c ∈ (generate_random_chunks main_n main_chunk_size s).1,
      c.length = 10240) := by
  obtain ⟨h1, h2, _⟩ := generate_random_chunks_spec main_n main_chunk_size s
  exact ⟨rfl, rfl, h1, fun c hc => (h2 c hc).1⟩

/-- Witness for C9: the first chunk of a default run has length 10240. -/
theorem c9_configuration_witness :
    main_n = 10 ∧ main_chunk_size = 10240 ∧
    ((generate_random_chunks main_n main_chunk_size ⟨fun _ => 0, 0⟩).1.head!).length =
      10240 := by
  have h := c9_configuration ⟨fun _ => 0, 0⟩
  have hne : (generate_random_chunks main_n main_chunk_size ⟨fun _ => 0, 0⟩).1 ≠ [] := by
    intro he
    have h10 := h.2.2.1
    rw [he] at h10
    cases h10
  exact ⟨h.1, h.2.1, h.2.2.2 _ (List.head!_mem_self hne)⟩

/-! ### Claim C10 -/

/-- **C10** (confirmed): the harness runs the four strategies in the fixed
source order `aiofiles`, `aiofile`, `executor` (pooled), `file`
(direct-sync) — the pooled-executor run, at trace position 10, strictly
precedes the direct-sync run at position 11 — and the four run events are
consecutive in the trace (each awaited to completion before the next
begins, as `test_stages` threads each strategy's resulting state into the
next). -/
theorem c10_strategy_order :
    testEvents.filterMap runName =
      [Dirs.AIOFILES.value, Dirs.AIOFILE.value,
       Dirs.EXECUTOR.value, Dirs.FILE.value] ∧
    testEvents[10]? = some (HarnessEvent.runStrategy Dirs.EXECUTOR.value) ∧
    testEvents[11]? = some (HarnessEvent.runStrategy Dirs.FILE.value) ∧
    (10 : Nat) < 11 :=
  ⟨rfl, rfl, rfl, by decide⟩

end WriteFilesPerf
